import Mathlib

/-!
Verification of the staged local-buffering and delivery pipeline of the
lightfile6-insights-gateway repository.

The on-disk state (stage directories holding record files) is embedded
shallowly: a directory is an association list from filename to file
content (a list of bytes), and the cache-manager / aggregator / uploader
functions of the source are translated into pure Lean functions over that
state.  The gzip codec is an external library at the system boundary
(compress/gzip); since encode/decode round-trip, artifact files are
modelled by the byte stream written to the gzip writer, i.e. by their
decompressed content, which is what the claims speak about.  Object-store
puts are modelled by a boolean outcome (`putOk`) and a log of the bodies
that were put.
-/

namespace Insights

/-- A byte of file content. -/
abbrev Byte := Nat

/-- A directory entry: filename and file content. -/
abbrev Entry := String × List Byte

/-- Model of reading a file by name in a directory (os.ReadFile /
collecting the content of a path): the first entry with that name. -/
def getEntry (dir : List Entry) (name : String) : Option (List Byte) :=
  (dir.find? (fun e => e.1 == name)).map Prod.snd

/-- Whether a file with this name exists in the directory. -/
def hasEntry (dir : List Entry) (name : String) : Bool :=
  dir.any (fun e => e.1 == name)

/-- Model of os.Create followed by Write: truncates an existing file of
that name (replacing its content in place) or creates a new one. -/
def putEntry (dir : List Entry) (name : String) (data : List Byte) : List Entry :=
  if hasEntry dir name then
    dir.map (fun e => if e.1 == name then (name, data) else e)
  else dir ++ [(name, data)]

/-- Removal whose failure is ignored or merely logged (the warn-only
RemoveFile call sites, and the deferred os.Remove of the temp file). -/
def removeEntryQuiet (dir : List Entry) (name : String) : List Entry :=
  dir.filter (fun e => !(e.1 == name))

/-- Model of RemoveFile, i.e. bare os.Remove: an error when the file does
not exist (os.Remove is not idempotent). -/
def removeFile (dir : List Entry) (name : String) : Except String (List Entry) :=
  if hasEntry dir name then .ok (removeEntryQuiet dir name)
  else .error ("remove " ++ name ++ ": no such file or directory")

/-- Model of saveFile: os.Create (truncating any existing file of the
same name) followed by writing the payload; no error is reported when the
name collides with an existing file. -/
def saveFile (dir : List Entry) (name : String) (data : List Byte) : List Entry :=
  putEntry dir name data

/-- Model of ReadFile. -/
def readFile (dir : List Entry) (name : String) : Option (List Byte) :=
  getEntry dir name

/-- generateFilename for usage/error data:
"&lt;nanosecond-timestamp&gt;.&lt;pid&gt;.&lt;user&gt;".  The wall clock and pid are
inputs of the model. -/
def generateFilename (timestamp pid : Nat) (user : String) : String :=
  toString timestamp ++ "." ++ toString pid ++ "." ++ user

/-! ### Specimen filename encoding and decoding -/

/-- Value of a decimal digit character. -/
def c2n (c : Char) : Nat := c.toNat - 48

/-- Value of a string of decimal digit characters. -/
def digitsToNat (cs : List Char) : Nat := cs.foldl (fun a c => 10 * a + c2n c) 0

/-- Value of a two-digit field. -/
def val2 (a b : Char) : Nat := 10 * c2n a + c2n b

/-- A specimen wall-clock instant as the filename encodes it: the
"yyyyMMddHHmmss" part kept as its 14-character digit string, plus the
microsecond fraction. -/
structure SpecTime where
  dt : String
  micros : Nat
deriving DecidableEq

/-- Zero-padded 6-digit rendering of the microsecond count. -/
def pad6 (n : Nat) : String :=
  let s := toString n
  String.mk (List.replicate (6 - s.length) '0') ++ s

/-- Drop trailing zero characters. -/
def trimTrailingZeros (s : String) : String :=
  String.mk ((s.data.reverse.dropWhile (fun c => c == '0')).reverse)

/-- Fractional-second rendering of Go's ".999999" layout element:
trailing zeros are removed, and when the fraction is zero the dot itself
is omitted. -/
def formatMicros (m : Nat) : String :=
  if m == 0 then "" else "." ++ trimTrailingZeros (pad6 m)

/-- Model of time.Format("20060102150405.999999") on the admission time. -/
def formatSpecimenTime (t : SpecTime) : String :=
  t.dt ++ formatMicros t.micros

/-- Model of Go time.Parse with layout "20060102150405.999999": 14 digit
characters with in-range month/day/hour/minute/second fields, followed by
an optional fractional-second field "." and 1 to 9 digits (truncated here
to microseconds, matching the precision SpecTime carries).  Go
additionally validates the day against the month length; no claim
depends on that refinement and it is elided. -/
def parseSpecimenTime (s : String) : Except String SpecTime :=
  let cs := s.data
  let dt := cs.take 14
  let rest := cs.drop 14
  match dt with
  | [_, _, _, _, mo1, mo2, d1, d2, h1, h2, mi1, mi2, s1, s2] =>
    if dt.all Char.isDigit ∧ 1 ≤ val2 mo1 mo2 ∧ val2 mo1 mo2 ≤ 12
        ∧ 1 ≤ val2 d1 d2 ∧ val2 d1 d2 ≤ 31 ∧ val2 h1 h2 ≤ 23
        ∧ val2 mi1 mi2 ≤ 59 ∧ val2 s1 s2 ≤ 59 then
      match rest with
      | [] => .ok ⟨String.mk dt, 0⟩
      | '.' :: ds =>
        if ds ≠ [] ∧ ds.all Char.isDigit ∧ ds.length ≤ 9 then
          .ok ⟨String.mk dt, digitsToNat ((ds ++ List.replicate (9 - ds.length) '0').take 6)⟩
        else .error ("cannot parse " ++ s)
      | _ => .error ("cannot parse " ++ s)
    else .error ("cannot parse " ++ s)
  | _ => .error ("cannot parse " ++ s)

/-- Characters url.QueryEscape leaves unescaped. -/
def isUnreserved (c : Char) : Bool :=
  c.isAlpha || c.isDigit || c == '-' || c == '_' || c == '.' || c == '~'

/-- Uppercase hexadecimal digit for a value below 16. -/
def hexDigitUpper (n : Nat) : Char :=
  if n < 10 then Char.ofNat (48 + n) else Char.ofNat (55 + n)

/-- Escape a single byte the way url.QueryEscape does: unreserved bytes
are kept, a space becomes a plus, anything else becomes percent and two
uppercase hex digits.  Characters of the modelled strings stand for the
bytes the Go code operates on. -/
def escapeChar (c : Char) : List Char :=
  if isUnreserved c then [c]
  else if c == ' ' then ['+']
  else ['%', hexDigitUpper (c.toNat / 16 % 16), hexDigitUpper (c.toNat % 16)]

/-- Model of url.QueryEscape. -/
def queryEscape (s : String) : String :=
  String.mk ((s.data.map escapeChar).flatten)

/-- Value of one hexadecimal digit character. -/
def hexVal (c : Char) : Option Nat :=
  if c.isDigit then some (c.toNat - 48)
  else if 'a' ≤ c ∧ c ≤ 'f' then some (c.toNat - 87)
  else if 'A' ≤ c ∧ c ≤ 'F' then some (c.toNat - 55)
  else none

/-- Model of url.QueryUnescape: a percent must be followed by two hex
digits, a plus decodes to a space, other bytes pass through. -/
def queryUnescapeChars : List Char → Option (List Char)
  | [] => some []
  | '%' :: a :: b :: rest =>
    match hexVal a, hexVal b, queryUnescapeChars rest with
    | some ha, some hb, some r => some (Char.ofNat (16 * ha + hb) :: r)
    | _, _, _ => none
  | '%' :: _ => none
  | '+' :: rest => (queryUnescapeChars rest).map (fun r => ' ' :: r)
  | c :: rest => (queryUnescapeChars rest).map (fun r => c :: r)

/-- Positions of the dot characters in a character list (the loop in
GetSpecimenInfo collects these indices, stopping after the third). -/
def findDots : List Char → Nat → List Nat
  | [], _ => []
  | c :: rest, i => if c == '.' then i :: findDots rest (i + 1) else findDots rest (i + 1)

/-- Model of filepath.Base for non-empty names: the suffix after the last
path separator.  Names generated by the store never contain a slash
(QueryEscape escapes it), so the empty-path and all-slash edge cases of
filepath.Base are unreachable here. -/
def baseName (s : String) : String :=
  String.mk ((s.data.reverse.takeWhile (fun c => !(c == '/'))).reverse)

/-- Model of GetSpecimenInfo: locate the first three dots of the base
name, parse everything before the second dot as the timestamp, and
URL-unescape everything after the third dot as the URI; reject filenames
with fewer than three dots or an empty timestamp or URI part. -/
def getSpecimenInfo (filename : String) : Except String (String × SpecTime) :=
  let base := (baseName filename).data
  match (findDots base 0).take 3 with
  | _ :: p2 :: p3 :: _ =>
    let timestampStr := base.take p2
    let encodedURI := base.drop (p3 + 1)
    if timestampStr.length == 0 || encodedURI.length == 0 then
      .error ("invalid specimen filename format: " ++ String.mk base)
    else
      match parseSpecimenTime (String.mk timestampStr) with
      | .error e => .error ("failed to parse timestamp: " ++ e)
      | .ok t =>
        match queryUnescapeChars encodedURI with
        | none => .error "failed to decode URI"
        | some uri => .ok (String.mk uri, t)
  | _ => .error ("invalid specimen filename format: " ++ String.mk base)

/-- Model of generateSpecimenFilename:
formatted admission time, pid, and query-escaped URI joined by dots. -/
def generateSpecimenFilename (uri : String) (t : SpecTime) (pid : Nat) : String :=
  formatSpecimenTime t ++ "." ++ toString pid ++ "." ++ queryEscape uri

/-! ### Stage directories and the aggregation pipeline -/

/-- The three stage directories of one batched kind (usage or error):
the kind's base directory (Incoming), its aggregation subdirectory, and
its uploading subdirectory. -/
structure KindDirs where
  incoming : List Entry
  aggregation : List Entry
  uploading : List Entry
deriving DecidableEq

/-- Model of SaveUsage / SaveError on one kind's directories: write the
payload under the generated name into the kind's Incoming directory. -/
def saveRecord (timestamp pid : Nat) (user : String) (data : List Byte) (st : KindDirs) :
    KindDirs :=
  { st with incoming := saveFile st.incoming (generateFilename timestamp pid user) data }

/-- Model of MoveToAggregation: rename each listed file from Incoming
into the aggregation directory, one at a time; os.Rename of a missing
source fails, and the loop returns that error at once, leaving the
remaining files unmoved. -/
def moveToAggregation (st : KindDirs) : List String → KindDirs × Option String
  | [] => (st, none)
  | f :: rest =>
    match getEntry st.incoming f with
    | none => (st, some ("failed to move file " ++ f))
    | some data =>
      moveToAggregation
        { st with
            incoming := removeEntryQuiet st.incoming f
            aggregation := putEntry st.aggregation f data } rest

/-- Model of MoveToUploading: rename one file from the aggregation
directory into the uploading directory, returning the new handle. -/
def moveToUploading (st : KindDirs) (file : String) : KindDirs × Except String String :=
  match getEntry st.aggregation file with
  | none => (st, .error ("failed to move file " ++ file))
  | some data =>
    ({ st with
        aggregation := removeEntryQuiet st.aggregation file
        uploading := putEntry st.uploading file data }, .ok file)

/-- Model of appendFile: the record's bytes are streamed into the gzip
writer and then a newline is written unconditionally — the source
comment says "Add newline if the file doesn't end with one" but the code
performs no such check. -/
def appendFile (b : List Byte) : List Byte := b ++ [10]

/-- Modelled from the spec: "terminating with a newline if the payload
lacks one" — a newline is appended only when the record does not already
end with one.  Stated for comparison with appendFile. -/
def appendFileNewlineIfMissing (b : List Byte) : List Byte :=
  if b.getLast? = some 10 then b else b ++ [10]

/-- Model of aggregateFiles on the contents of the staged records: the
byte stream written through the gzip writer, record after record. -/
def aggregateFiles : List (List Byte) → List Byte
  | [] => []
  | b :: rest => appendFile b ++ aggregateFiles rest

/-- Spec-side counterpart of aggregateFiles built on
appendFileNewlineIfMissing, for the divergence statement. -/
def aggregateFilesNewlineIfMissing : List (List Byte) → List Byte
  | [] => []
  | b :: rest => appendFileNewlineIfMissing b ++ aggregateFilesNewlineIfMissing rest

/-- Read each listed file of a directory in turn (the os.Open performed
by appendFile for every staged record); a missing file yields none. -/
def readAll (dir : List Entry) : List String → Option (List (List Byte))
  | [] => some []
  | n :: rest =>
    match getEntry dir n, readAll dir rest with
    | some c, some cs => some (c :: cs)
    | _, _ => none

/-- Model of sort.Strings: ascending lexicographic order. -/
def sortNames (l : List String) : List String :=
  l.insertionSort (fun a b => a ≤ b)

/-- Name of the temporary artifact created by createTempFile. -/
def tempName (nano : Nat) : String :=
  "aggregate_" ++ toString nano ++ ".gz"

/-- Outcome of one AggregateAndUpload call: the resulting stage
directories, the decompressed bodies put to the object store during the
call, and the returned error if any. -/
structure CycleResult where
  dirs : KindDirs
  uploaded : List (List Byte)
  err : Option String
deriving DecidableEq

/-- Model of AggregateAndUpload for one batched kind.  putOk is the
outcome of the object-store put; nano the wall clock read by
createTempFile.  The deferred os.Remove of the temp path runs on every
exit after its creation (a quiet no-op once the artifact has been moved
to the uploading directory). -/
def aggregateAndUpload (putOk : Bool) (nano : Nat) (st : KindDirs) : CycleResult :=
  let files := st.incoming.map Prod.fst
  if files.isEmpty then ⟨st, [], none⟩
  else
    match moveToAggregation st files with
    | (st1, some e) => ⟨st1, [], some ("failed to move files to aggregation: " ++ e)⟩
    | (st1, none) =>
      let aggNames := sortNames (st1.aggregation.map Prod.fst)
      let st2 := { st1 with aggregation := putEntry st1.aggregation (tempName nano) [] }
      match readAll st2.aggregation aggNames with
      | none =>
        ⟨{ st2 with aggregation := removeEntryQuiet st2.aggregation (tempName nano) }, [],
          some "failed to aggregate files"⟩
      | some bodies =>
        let body := aggregateFiles bodies
        let st3 := { st2 with aggregation := putEntry st2.aggregation (tempName nano) body }
        match moveToUploading st3 (tempName nano) with
        | (st4, .error e) =>
          ⟨{ st4 with aggregation := removeEntryQuiet st4.aggregation (tempName nano) }, [],
            some ("failed to move to uploading: " ++ e)⟩
        | (st4, .ok uploadingName) =>
          if putOk then
            let st5 := { st4 with uploading := removeEntryQuiet st4.uploading uploadingName }
            let st6 :=
              { st5 with aggregation := aggNames.foldl removeEntryQuiet st5.aggregation }
            ⟨{ st6 with aggregation := removeEntryQuiet st6.aggregation (tempName nano) },
              [body], none⟩
          else
            ⟨{ st4 with aggregation := removeEntryQuiet st4.aggregation (tempName nano) }, [],
              some "failed to upload to S3"⟩

/-- The artifact body one cycle builds from its aggregation-directory
listing (GetAggregationFiles, sort.Strings, aggregateFiles): sort the
staged filenames ascending and stream each file through the gzip writer
in that order. -/
def cycleArtifact (dir : List Entry) : Option (List Byte) :=
  (readAll dir (sortNames (dir.map Prod.fst))).map aggregateFiles

/-- The uploading-directory loop of ProcessRemaining for one kind: read
and re-put each listed artifact as stored; on success delete it
(warn-only), on a failed put continue with the next file. -/
def processUploadingFiles (putOk : Bool) (dir : List Entry) :
    List String → List Entry × List (List Byte)
  | [] => (dir, [])
  | n :: rest =>
    match getEntry dir n with
    | none => processUploadingFiles putOk dir rest
    | some body =>
      if putOk then
        let r := processUploadingFiles putOk (removeEntryQuiet dir n) rest
        (r.1, body :: r.2)
      else processUploadingFiles putOk dir rest

/-- The per-kind part of ProcessRemaining: first re-attempt everything in
the uploading directory, then run one ordinary aggregation cycle. -/
def processKind (putOk : Bool) (nano : Nat) (dirs : KindDirs) : KindDirs × List (List Byte) :=
  let u := processUploadingFiles putOk dirs.uploading (dirs.uploading.map Prod.fst)
  let r := aggregateAndUpload putOk nano { dirs with uploading := u.1 }
  (r.dirs, u.2 ++ r.uploaded)

/-! ### Specimen fast path and the full reconciliation pass -/

/-- The whole cache directory tree: the two batched kinds plus the
specimen directories (specimen has no aggregation stage). -/
structure CacheState where
  usage : KindDirs
  error : KindDirs
  specimenIncoming : List Entry
  specimenUploading : List Entry
deriving DecidableEq

/-- A specimen object put to the store: the owner it was uploaded for,
the URI carried in its metadata, and the body. -/
structure SpecimenUpload where
  user : String
  uri : String
  body : List Byte
deriving DecidableEq

/-- Model of SaveSpecimen: write the payload under the generated
specimen name into the specimen Incoming directory. -/
def saveSpecimen (uri : String) (t : SpecTime) (pid : Nat) (data : List Byte)
    (st : CacheState) : CacheState :=
  { st with
      specimenIncoming :=
        saveFile st.specimenIncoming (generateSpecimenFilename uri t pid) data }

/-- The scan inside UploadSpecimen: decode every Incoming specimen name
(skipping unparseable ones with a warning) and return the first file
whose decoded URI matches. -/
def findSpecimenTarget : List Entry → String → Option Entry
  | [], _ => none
  | (n, d) :: rest, uri =>
    match getSpecimenInfo n with
    | .error _ => findSpecimenTarget rest uri
    | .ok (u, _) => if u == uri then some (n, d) else findSpecimenTarget rest uri

/-- Model of UploadSpecimen: find the Incoming specimen file for the
URI, move it to the specimen uploading directory, upload it (recording
owner, URI metadata and body), and delete it on success; on a failed put
the file is left in the uploading directory. -/
def uploadSpecimen (putOk : Bool) (user uri : String) (st : CacheState) :
    CacheState × List SpecimenUpload × Option String :=
  match findSpecimenTarget st.specimenIncoming uri with
  | none => (st, [], some ("specimen file not found for URI: " ++ uri))
  | some (name, data) =>
    let st1 :=
      { st with
          specimenIncoming := removeEntryQuiet st.specimenIncoming name
          specimenUploading := putEntry st.specimenUploading name data }
    match getSpecimenInfo name with
    | .error e => (st1, [], some ("failed to get specimen info: " ++ e))
    | .ok _ =>
      if putOk then
        ({ st1 with specimenUploading := removeEntryQuiet st1.specimenUploading name },
          [⟨user, uri, data⟩], none)
      else (st1, [], some "failed to upload specimen to S3")

/-- The specimen loop at the end of ProcessRemaining: list the specimen
Incoming directory, decode each name (skipping unparseable ones), and
call UploadSpecimen with the fixed placeholder owner "unknown"; upload
errors are logged and the loop continues. -/
def processSpecimenLoop (putOk : Bool) (st : CacheState) :
    List String → CacheState × List SpecimenUpload
  | [] => (st, [])
  | n :: rest =>
    match getSpecimenInfo n with
    | .error _ => processSpecimenLoop putOk st rest
    | .ok (uri, _) =>
      let u := uploadSpecimen putOk "unknown" uri st
      let r := processSpecimenLoop putOk u.1 rest
      (r.1, u.2.1 ++ r.2)

/-- Outcome of ProcessRemaining: the resulting cache state, the
aggregate bodies put per kind, and the specimen objects put. -/
structure ProcessResult where
  state : CacheState
  uploadedAggregates : List (String × List Byte)
  uploadedSpecimens : List SpecimenUpload
deriving DecidableEq

/-- Model of ProcessRemaining: for usage then error, first re-attempt
everything in the kind's uploading directory, then run one ordinary
aggregation cycle; finally list the specimen Incoming directory and
re-attempt each record with placeholder owner "unknown". -/
def processRemaining (putOk : Bool) (nanoUsage nanoError : Nat) (st : CacheState) :
    ProcessResult :=
  let u := processKind putOk nanoUsage st.usage
  let e := processKind putOk nanoError st.error
  let st1 := { st with usage := u.1, error := e.1 }
  let sp := processSpecimenLoop putOk st1 (st1.specimenIncoming.map Prod.fst)
  ⟨sp.1, u.2.map (fun b => ("usage", b)) ++ e.2.map (fun b => ("error", b)), sp.2⟩

-- Some sanity checks of the primitive directory operations.
example : getEntry [("a", [1]), ("b", [2])] "b" = some [2] := by decide
example : putEntry [("a", [1])] "a" [9] = [("a", [9])] := by decide
example : removeFile ([] : List Entry) "f" = .error "remove f: no such file or directory" := rfl

-- Sanity checks against the repository's own unit-test vectors.
example :
    getSpecimenInfo "20240101123045.123456.12345.http%3A%2F%2Fexample.com%2Ftest.png"
      = .ok ("http://example.com/test.png", ⟨"20240101123045", 123456⟩) := rfl

example :
    getSpecimenInfo "20240101123045.123456.12345.http%3A%2F%2Fexample.com%2Ftest+file.png"
      = .ok ("http://example.com/test file.png", ⟨"20240101123045", 123456⟩) := rfl

example : (getSpecimenInfo "invalid_filename").isOk = false := rfl

example :
    generateSpecimenFilename "http://example.com/test file.png" ⟨"20240101123045", 123456⟩ 77
      = "20240101123045.123456.77.http%3A%2F%2Fexample.com%2Ftest+file.png" := rfl

-- Sanity checks of the aggregation cycle on tiny inputs.
example :
    aggregateAndUpload true 9 ⟨[("1.2.u", [65])], [], []⟩
      = ⟨⟨[], [], []⟩, [[65, 10]], none⟩ := rfl

example :
    aggregateAndUpload false 9 ⟨[("1.2.u", [65])], [], []⟩
      = ⟨⟨[], [("1.2.u", [65])], [("aggregate_9.gz", [65, 10])]⟩, [],
          some "failed to upload to S3"⟩ := rfl

-- Sanity check: a full pass over an empty tree does nothing.
example :
    processRemaining true 1 2 ⟨⟨[], [], []⟩, ⟨[], [], []⟩, [], []⟩
      = ⟨⟨⟨[], [], []⟩, ⟨[], [], []⟩, [], []⟩, [], []⟩ := rfl

/-! ### Lemmas about the directory primitives -/

theorem hasEntry_iff_mem {dir : List Entry} {n : String} :
    hasEntry dir n = true ↔ n ∈ dir.map Prod.fst := by
  rw [hasEntry, List.any_eq_true]
  constructor
  · rintro ⟨e, he, hp⟩
    exact List.mem_map.mpr ⟨e, he, beq_iff_eq.mp hp⟩
  · intro hm
    rcases List.mem_map.mp hm with ⟨e, he, rfl⟩
    exact ⟨e, he, beq_iff_eq.mpr rfl⟩

theorem hasEntry_eq_false {dir : List Entry} {n : String}
    (h : ¬ n ∈ dir.map Prod.fst) : hasEntry dir n = false := by
  cases hh : hasEntry dir n
  · rfl
  · exact absurd (hasEntry_iff_mem.mp hh) h

theorem getEntry_cons (e : Entry) (tl : List Entry) (n : String) :
    getEntry (e :: tl) n = if e.1 == n then some e.2 else getEntry tl n := by
  by_cases h : e.1 == n <;> simp [getEntry, List.find?_cons, h]

theorem getEntry_cons_self (n : String) (c : List Byte) (tl : List Entry) :
    getEntry ((n, c) :: tl) n = some c := by
  simp [getEntry_cons]

theorem getEntry_eq_none_of_not_mem {dir : List Entry} {n : String}
    (h : ¬ n ∈ dir.map Prod.fst) : getEntry dir n = none := by
  induction dir with
  | nil => rfl
  | cons e tl ih =>
    simp only [List.map_cons, List.mem_cons, not_or] at h
    rw [getEntry_cons, if_neg (by simpa using Ne.symm h.1), ih h.2]

theorem getEntry_append_of_not_mem {d : List Entry} {n : String} (d2 : List Entry)
    (h : ¬ n ∈ d.map Prod.fst) : getEntry (d ++ d2) n = getEntry d2 n := by
  induction d with
  | nil => rfl
  | cons e tl ih =>
    simp only [List.map_cons, List.mem_cons, not_or] at h
    rw [List.cons_append, getEntry_cons, if_neg (by simpa using Ne.symm h.1), ih h.2]

theorem getEntry_isSome_of_mem {dir : List Entry} {n : String}
    (h : n ∈ dir.map Prod.fst) : ∃ c, getEntry dir n = some c := by
  induction dir with
  | nil => simp at h
  | cons e tl ih =>
    rw [getEntry_cons]
    by_cases he : e.1 == n
    · exact ⟨e.2, by rw [if_pos he]⟩
    · rw [if_neg he]
      rw [List.map_cons] at h
      rcases List.mem_cons.mp h with h1 | h1
      · exact absurd (beq_iff_eq.mpr h1.symm) he
      · exact ih h1

theorem getEntry_of_mem_nodup {dir : List Entry} {n : String} {c : List Byte}
    (hmem : (n, c) ∈ dir) (hnd : (dir.map Prod.fst).Nodup) : getEntry dir n = some c := by
  induction dir with
  | nil => simp at hmem
  | cons e tl ih =>
    rw [List.map_cons, List.nodup_cons] at hnd
    rcases List.mem_cons.mp hmem with h1 | h1
    · subst h1; exact getEntry_cons_self _ _ _
    · have hne : e.1 ≠ n := by
        intro hEq
        exact hnd.1 (hEq ▸ List.mem_map.mpr ⟨(n, c), h1, rfl⟩)
      rw [getEntry_cons, if_neg (by simpa using hne)]
      exact ih h1 hnd.2

theorem removeEntryQuiet_of_not_mem {d : List Entry} {n : String}
    (h : ¬ n ∈ d.map Prod.fst) : removeEntryQuiet d n = d := by
  induction d with
  | nil => rfl
  | cons e tl ih =>
    simp only [List.map_cons, List.mem_cons, not_or] at h
    simp only [removeEntryQuiet, List.filter_cons]
    rw [if_pos (by simpa using Ne.symm h.1)]
    exact congrArg (e :: ·) (ih h.2)

theorem removeEntryQuiet_append (a b : List Entry) (n : String) :
    removeEntryQuiet (a ++ b) n = removeEntryQuiet a n ++ removeEntryQuiet b n :=
  List.filter_append a b

theorem removeEntryQuiet_cons_self (n : String) (c : List Byte) (tl : List Entry) :
    removeEntryQuiet ((n, c) :: tl) n = removeEntryQuiet tl n := by
  simp [removeEntryQuiet, List.filter_cons]

theorem map_fst_removeEntryQuiet_subset {d : List Entry} {m n : String}
    (h : m ∈ (removeEntryQuiet d n).map Prod.fst) : m ∈ d.map Prod.fst := by
  rcases List.mem_map.mp h with ⟨e, he, rfl⟩
  exact List.mem_map.mpr ⟨e, List.mem_of_mem_filter he, rfl⟩

theorem mem_map_fst_removeEntryQuiet {d : List Entry} {m n : String} (h : m ≠ n) :
    m ∈ (removeEntryQuiet d n).map Prod.fst ↔ m ∈ d.map Prod.fst := by
  constructor
  · exact map_fst_removeEntryQuiet_subset
  · intro hm
    rcases List.mem_map.mp hm with ⟨e, he, rfl⟩
    refine List.mem_map.mpr ⟨e, List.mem_filter.mpr ⟨he, ?_⟩, rfl⟩
    simpa using h

theorem hasEntry_removeEntryQuiet_self (d : List Entry) (n : String) :
    hasEntry (removeEntryQuiet d n) n = false := by
  apply hasEntry_eq_false
  intro hmem
  rcases List.mem_map.mp hmem with ⟨e, he, rfl⟩
  have := List.of_mem_filter he
  simp at this

theorem putEntry_of_not_mem {d : List Entry} {n : String} (c : List Byte)
    (h : ¬ n ∈ d.map Prod.fst) : putEntry d n c = d ++ [(n, c)] := by
  rw [putEntry, hasEntry_eq_false h]
  simp

theorem getEntry_map_update (tl : List Entry) (n : String) (c : List Byte)
    (h : hasEntry tl n = true) :
    getEntry (tl.map (fun e => if e.1 == n then (n, c) else e)) n = some c := by
  induction tl with
  | nil => simp [hasEntry] at h
  | cons e tl ih =>
    rw [List.map_cons]
    by_cases he : e.1 == n
    · rw [if_pos he, getEntry_cons_self]
    · rw [if_neg he, getEntry_cons, if_neg he]
      rw [hasEntry, List.any_cons] at h
      simp only [he, Bool.false_or] at h
      exact ih h

theorem getEntry_putEntry_self (d : List Entry) (n : String) (c : List Byte) :
    getEntry (putEntry d n c) n = some c := by
  by_cases h : hasEntry d n
  · rw [putEntry, if_pos h]
    exact getEntry_map_update d n c h
  · rw [putEntry, if_neg h]
    have hnm : ¬ n ∈ d.map Prod.fst := fun hm => h (hasEntry_iff_mem.mpr hm)
    rw [getEntry_append_of_not_mem _ hnm, getEntry_cons_self]

theorem mem_putEntry_self {d : List Entry} {n : String} {c x : List Byte}
    (h : (n, x) ∈ putEntry d n c) : x = c := by
  by_cases hh : hasEntry d n
  · rw [putEntry, if_pos hh] at h
    rcases List.mem_map.mp h with ⟨e, _, hfe⟩
    by_cases he : e.1 == n
    · rw [if_pos he] at hfe
      exact (Prod.ext_iff.mp hfe).2.symm
    · rw [if_neg he] at hfe
      subst hfe
      exact absurd (by simp) he
  · rw [putEntry, if_neg hh] at h
    rcases List.mem_append.mp h with h1 | h1
    · exact absurd (hasEntry_iff_mem.mpr (List.mem_map.mpr ⟨(n, x), h1, rfl⟩)) hh
    · exact (Prod.ext_iff.mp (List.mem_singleton.mp h1)).2

theorem map_update_of_not_mem {d : List Entry} {n : String} (c : List Byte)
    (h : ¬ n ∈ d.map Prod.fst) :
    d.map (fun e => if e.1 == n then (n, c) else e) = d := by
  induction d with
  | nil => rfl
  | cons e tl ih =>
    simp only [List.map_cons, List.mem_cons, not_or] at h
    rw [List.map_cons, if_neg (by simpa using Ne.symm h.1), ih h.2]

theorem putEntry_append_singleton (d : List Entry) (n : String) (c0 c : List Byte)
    (h : ¬ n ∈ d.map Prod.fst) :
    putEntry (d ++ [(n, c0)]) n c = d ++ [(n, c)] := by
  have hh : hasEntry (d ++ [(n, c0)]) n = true :=
    hasEntry_iff_mem.mpr (by simp)
  rw [putEntry, if_pos hh, List.map_append, map_update_of_not_mem c h]
  simp
/-! ### Lemmas about the pipeline steps -/

theorem moveToAggregation_all (inc : List Entry) :
    ∀ (agg upl : List Entry),
      (inc.map Prod.fst).Nodup →
      (∀ n ∈ inc.map Prod.fst, ¬ n ∈ agg.map Prod.fst) →
      moveToAggregation ⟨inc, agg, upl⟩ (inc.map Prod.fst)
        = (⟨[], agg ++ inc, upl⟩, none) := by
  induction inc with
  | nil =>
    intro agg upl _ _
    simp [moveToAggregation]
  | cons e tl ih =>
    intro agg upl hnd hdisj
    obtain ⟨n, c⟩ := e
    rw [List.map_cons, List.nodup_cons] at hnd
    have hd0 : ¬ n ∈ agg.map Prod.fst := hdisj n (by simp)
    have h1 : removeEntryQuiet ((n, c) :: tl) n = tl := by
      rw [removeEntryQuiet_cons_self, removeEntryQuiet_of_not_mem hnd.1]
    have h2 : putEntry agg n c = agg ++ [(n, c)] := putEntry_of_not_mem c hd0
    have hdisj2 : ∀ m ∈ tl.map Prod.fst, ¬ m ∈ (agg ++ [(n, c)]).map Prod.fst := by
      intro m hm
      rw [List.map_append, List.mem_append]
      rintro (hma | hms)
      · exact hdisj m (by rw [List.map_cons]; exact List.mem_cons_of_mem _ hm) hma
      · simp only [List.map_cons, List.map_nil, List.mem_singleton] at hms
        exact hnd.1 (hms ▸ hm)
    simp only [List.map_cons, moveToAggregation, getEntry_cons_self, h1, h2]
    rw [ih (agg ++ [(n, c)]) upl hnd.2 hdisj2]
    simp [List.append_assoc]

theorem readAll_isSome {dir : List Entry} {names : List String}
    (h : ∀ n ∈ names, n ∈ dir.map Prod.fst) : ∃ bs, readAll dir names = some bs := by
  induction names with
  | nil => exact ⟨[], rfl⟩
  | cons n rest ih =>
    obtain ⟨c, hc⟩ := getEntry_isSome_of_mem (h n (by simp))
    obtain ⟨bs, hbs⟩ := ih fun m hm => h m (List.mem_cons_of_mem _ hm)
    exact ⟨c :: bs, by simp only [readAll, hc, hbs]⟩

theorem readAll_append_of {dir : List Entry} {xs : List String} {as : List (List Byte)}
    {ys : List String} {bs : List (List Byte)}
    (hx : readAll dir xs = some as) (hy : readAll dir ys = some bs) :
    readAll dir (xs ++ ys) = some (as ++ bs) := by
  induction xs generalizing as with
  | nil =>
    simp only [readAll] at hx
    cases hx
    simpa using hy
  | cons n rest ih =>
    simp only [readAll] at hx
    cases hg : getEntry dir n with
    | none => rw [hg] at hx; exact absurd hx (by simp)
    | some c =>
      rw [hg] at hx
      cases hr : readAll dir rest with
      | none => rw [hr] at hx; exact absurd hx (by simp)
      | some cs =>
        rw [hr] at hx
        cases hx
        rw [List.cons_append]
        simp only [readAll, hg, ih hr, List.cons_append]

theorem aggregateFiles_append (xs ys : List (List Byte)) :
    aggregateFiles (xs ++ ys) = aggregateFiles xs ++ aggregateFiles ys := by
  induction xs with
  | nil => rfl
  | cons b tl ih => simp [aggregateFiles, ih, List.append_assoc]

theorem processUploadingFiles_all (dir : List Entry)
    (hnd : (dir.map Prod.fst).Nodup) :
    processUploadingFiles true dir (dir.map Prod.fst) = ([], dir.map Prod.snd) := by
  induction dir with
  | nil => rfl
  | cons e tl ih =>
    obtain ⟨n, c⟩ := e
    rw [List.map_cons, List.nodup_cons] at hnd
    have h1 : removeEntryQuiet ((n, c) :: tl) n = tl := by
      rw [removeEntryQuiet_cons_self, removeEntryQuiet_of_not_mem hnd.1]
    simp [processUploadingFiles, getEntry_cons_self, h1, ih hnd.2]

theorem sortNames_perm (l : List String) : List.Perm (sortNames l) l :=
  List.perm_insertionSort _ l

theorem sortNames_sorted (l : List String) :
    List.Sorted (fun a b => a ≤ b) (sortNames l) :=
  List.sorted_insertionSort _ l

theorem sorted_split_of_lt {l : List String}
    (hs : List.Sorted (fun a b => a ≤ b) l) {n1 n2 : String}
    (h1 : n1 ∈ l) (h2 : n2 ∈ l) (hlt : n1 < n2) :
    ∃ l1 l2 l3, l = l1 ++ n1 :: (l2 ++ n2 :: l3) := by
  obtain ⟨s, t, rfl⟩ := List.append_of_mem h1
  rw [List.mem_append, List.mem_cons] at h2
  rcases h2 with h2 | h2 | h2
  · have hle : n2 ≤ n1 :=
      (List.pairwise_append.mp hs).2.2 n2 h2 n1 (List.mem_cons_self _ _)
    exact absurd hlt (not_lt.mpr hle)
  · rw [h2] at hlt
    exact absurd hlt (lt_irrefl _)
  · obtain ⟨u, v, rfl⟩ := List.append_of_mem h2
    exact ⟨s, u, v, rfl⟩

theorem aggregateAndUpload_fail_eq (inc agg upl : List Entry) (nano : Nat)
    (hne : inc ≠ [])
    (hnd : (inc.map Prod.fst).Nodup)
    (hdisj : ∀ n ∈ inc.map Prod.fst, ¬ n ∈ agg.map Prod.fst)
    (htmpI : ¬ tempName nano ∈ inc.map Prod.fst)
    (htmpA : ¬ tempName nano ∈ agg.map Prod.fst) :
    ∃ body,
      aggregateAndUpload false nano ⟨inc, agg, upl⟩
        = ⟨⟨[], agg ++ inc, putEntry upl (tempName nano) body⟩, [],
            some "failed to upload to S3"⟩ := by
  have htmpAI : ¬ tempName nano ∈ (agg ++ inc).map Prod.fst := by
    rw [List.map_append, List.mem_append]
    rintro (h | h)
    · exact htmpA h
    · exact htmpI h
  have hlist : (inc.map Prod.fst).isEmpty = false := by
    cases inc with
    | nil => exact absurd rfl hne
    | cons _ _ => rfl
  have hmove := moveToAggregation_all inc agg upl hnd hdisj
  have hpresent : ∀ m ∈ sortNames ((agg ++ inc).map Prod.fst),
      m ∈ ((agg ++ inc) ++ [(tempName nano, [])]).map Prod.fst := by
    intro m hm
    have hm2 : m ∈ (agg ++ inc).map Prod.fst := (sortNames_perm _).mem_iff.mp hm
    rw [List.map_append]
    exact List.mem_append_left _ hm2
  obtain ⟨bodies, hbodies⟩ := readAll_isSome hpresent
  refine ⟨aggregateFiles bodies, ?_⟩
  have hput0 : putEntry (agg ++ inc) (tempName nano) []
      = (agg ++ inc) ++ [(tempName nano, [])] :=
    putEntry_of_not_mem _ htmpAI
  have hput1 : putEntry ((agg ++ inc) ++ [(tempName nano, [])]) (tempName nano)
        (aggregateFiles bodies)
      = (agg ++ inc) ++ [(tempName nano, aggregateFiles bodies)] :=
    putEntry_append_singleton _ _ _ _ htmpAI
  have hget : getEntry ((agg ++ inc) ++ [(tempName nano, aggregateFiles bodies)])
        (tempName nano)
      = some (aggregateFiles bodies) := by
    rw [getEntry_append_of_not_mem _ htmpAI, getEntry_cons_self]
  have hrem : removeEntryQuiet ((agg ++ inc) ++ [(tempName nano, aggregateFiles bodies)])
        (tempName nano) = agg ++ inc := by
    rw [removeEntryQuiet_append, removeEntryQuiet_of_not_mem htmpAI,
        removeEntryQuiet_cons_self]
    simp [removeEntryQuiet]
  have hrem2 : removeEntryQuiet (agg ++ inc) (tempName nano) = agg ++ inc :=
    removeEntryQuiet_of_not_mem htmpAI
  unfold aggregateAndUpload
  simp only [moveToUploading, hlist, hmove, hput0, hbodies, hput1, hget, hrem, hrem2,
    Bool.false_eq_true, if_false]

/-! ### Claim theorems -/

/-- C1: the no-loss property fails in the code.  With one previously
admitted record left in the usage Aggregating directory and Incoming
empty (a restart between promotion and artifact creation), the
reconciliation pass — object-store puts all succeeding — uploads no
aggregate at all and leaves the record exactly where it was:
AggregateAndUpload returns as a no-op on empty Incoming without ever
re-listing Aggregating, so the record's payload ends up in no uploaded
aggregate object. -/
theorem c1_leftover_in_aggregating_is_stranded :
    processRemaining true 1 2
        ⟨⟨[], [("1700000000000000000.100.alice", [65])], []⟩, ⟨[], [], []⟩, [], []⟩
      = ⟨⟨⟨[], [("1700000000000000000.100.alice", [65])], []⟩, ⟨[], [], []⟩, [], []⟩,
          [], []⟩ := rfl

/-- C2 fails as stated: with only "b" present in Incoming, promoting the
batch ["a", "b"] stops at the failed rename of "a" — the call returns
the error and "b", which follows the failing handle, is not renamed into
the aggregation directory (it stays in Incoming, aggregation stays
empty). -/
theorem c2_counterexample_abort_on_first_failure :
    moveToAggregation ⟨[("b", [1])], [], []⟩ ["a", "b"]
      = (⟨[("b", [1])], [], []⟩, some "failed to move file a")
    ∧ (moveToAggregation ⟨[("b", [1])], [], []⟩ ["a", "b"]).1.aggregation = [] :=
  ⟨rfl, rfl⟩

/-- C3 fails as stated: Finalize (RemoveFile) of the file "f" succeeds
once, and the second call on the resulting directory returns an error —
os.Remove reports a missing file rather than succeeding idempotently. -/
theorem c3_counterexample_second_remove_errors :
    removeFile [("f", [1])] "f" = .ok []
    ∧ removeFile ([] : List Entry) "f" = .error "remove f: no such file or directory" :=
  ⟨rfl, rfl⟩

/-- C4: the round-trip fails in the code.  At an admission time whose
microsecond fraction is zero, Go's ".999999" layout omits the fraction
and its dot entirely, so the generated filename has only two dots before
the encoded URI; GetSpecimenInfo then takes its third dot from inside
the encoded URI (the dot of "example.com") and returns the URI suffix
"com/test.png" instead of the original URI, with the pid digits parsed
as the fractional second. -/
theorem c4_roundtrip_fails_at_zero_micros :
    getSpecimenInfo
        (generateSpecimenFilename "http://example.com/test.png" ⟨"20240101123045", 0⟩ 12345)
      = .ok ("com/test.png", ⟨"20240101123045", 123450⟩)
    ∧ ("com/test.png" : String) ≠ "http://example.com/test.png" :=
  ⟨rfl, by decide⟩

/-- C5: the newline handling diverges from the claim.  For a record
whose payload already ends in a newline, aggregateFiles appends another
newline unconditionally (producing a blank line), whereas the behaviour
the claim and the source's own comment describe — append only when the
payload lacks one — would not. -/
theorem c5_unconditional_newline_divergence :
    aggregateFiles [[120, 10]] = [120, 10, 10]
    ∧ aggregateFilesNewlineIfMissing [[120, 10]] = [120, 10]
    ∧ aggregateFiles [[120, 10]] ≠ aggregateFilesNewlineIfMissing [[120, 10]] :=
  ⟨rfl, rfl, by decide⟩

/-- C7 fails as stated: a specimen record left in the specimen Uploading
directory by a failed fast-path upload is not picked up by the
reconciliation pass — ProcessRemaining lists only the specimen Incoming
directory (GetSpecimenFiles), so with Incoming empty the pass attempts
no specimen upload at all and the leftover stays in Uploading. -/
theorem c7_counterexample_uploading_leftover_ignored :
    processRemaining true 1 2
        ⟨⟨[], [], []⟩, ⟨[], [], []⟩, [],
          [("20240101123045.123456.12345.http%3A%2F%2Fexample.com%2Ftest.png", [1, 2])]⟩
      = ⟨⟨⟨[], [], []⟩, ⟨[], [], []⟩, [],
            [("20240101123045.123456.12345.http%3A%2F%2Fexample.com%2Ftest.png", [1, 2])]⟩,
          [], []⟩ := rfl

/-- C2 amended: Promote (MoveToAggregation) aborts at the first rename
failure.  For any batch pre ++ bad :: post where every handle of pre is
present in Incoming (pairwise distinct) and bad is not, the call moves
the pre handles, returns the error naming bad, and leaves the state
exactly as it was after the pre moves — the handles at and after the
failing one are not renamed, and the result does not depend on post. -/
theorem c2_amended_abort_semantics (st : KindDirs) (pre : List String) (bad : String)
    (post : List String)
    (hpre : ∀ n ∈ pre, n ∈ st.incoming.map Prod.fst)
    (hnd : pre.Nodup)
    (hbad : ¬ bad ∈ st.incoming.map Prod.fst) :
    (moveToAggregation st pre).2 = none
    ∧ moveToAggregation st (pre ++ bad :: post)
        = ((moveToAggregation st pre).1, some ("failed to move file " ++ bad)) := by
  induction pre generalizing st with
  | nil =>
    refine ⟨rfl, ?_⟩
    simp only [List.nil_append, moveToAggregation, getEntry_eq_none_of_not_mem hbad]
  | cons n pre ih =>
    obtain ⟨c, hc⟩ := getEntry_isSome_of_mem (hpre n (by simp))
    rw [List.nodup_cons] at hnd
    have hpre2 : ∀ m ∈ pre, m ∈ (removeEntryQuiet st.incoming n).map Prod.fst := by
      intro m hm
      have hmn : m ≠ n := fun hEq => hnd.1 (hEq ▸ hm)
      exact (mem_map_fst_removeEntryQuiet hmn).mpr (hpre m (List.mem_cons_of_mem _ hm))
    have hbad2 : ¬ bad ∈ (removeEntryQuiet st.incoming n).map Prod.fst :=
      fun hm => hbad (map_fst_removeEntryQuiet_subset hm)
    have hrec := ih { st with
        incoming := removeEntryQuiet st.incoming n
        aggregation := putEntry st.aggregation n c } hpre2 hnd.2 hbad2
    simp only [List.cons_append, moveToAggregation, hc]
    exact hrec

/-- Witness for the amended C2 theorem at a concrete batch: with only
"a" and "b" present, promoting ["a", "x", "b"] moves "a", stops at "x",
and leaves "b" unmoved. -/
theorem c2_amended_abort_semantics_witness :
    (moveToAggregation ⟨[("a", [1]), ("b", [2])], [], []⟩ ["a"]).2 = none
    ∧ moveToAggregation ⟨[("a", [1]), ("b", [2])], [], []⟩ (["a"] ++ "x" :: ["b"])
        = ((moveToAggregation ⟨[("a", [1]), ("b", [2])], [], []⟩ ["a"]).1,
            some ("failed to move file " ++ "x")) :=
  c2_amended_abort_semantics ⟨[("a", [1]), ("b", [2])], [], []⟩ ["a"] "x" ["b"]
    (by decide) (by decide) (by decide)

/-- C3 amended: Finalize (RemoveFile) is not idempotent — once a call
has deleted the file, calling it again on the resulting directory
returns the os.Remove missing-file error (the aggregator's call sites
treat such failures as logged warnings). -/
theorem c3_amended_remove_not_idempotent (dir d2 : List Entry) (name : String)
    (h : removeFile dir name = .ok d2) :
    removeFile d2 name = .error ("remove " ++ name ++ ": no such file or directory") := by
  rw [removeFile] at h
  by_cases hh : hasEntry dir name
  · rw [if_pos hh] at h
    cases h
    rw [removeFile, hasEntry_removeEntryQuiet_self]
    simp
  · rw [if_neg hh] at h
    exact absurd h (by simp)

/-- Witness for the amended C3 theorem: deleting "f" succeeds once and
errors the second time. -/
theorem c3_amended_remove_not_idempotent_witness :
    removeFile ([] : List Entry) "f"
      = .error ("remove " ++ "f" ++ ": no such file or directory") :=
  c3_amended_remove_not_idempotent [("f", [1])] [] "f" rfl

/-- C6: upload-failure retention.  When the put of the aggregate
artifact fails, AggregateAndUpload deletes nothing: no body is uploaded,
the call errors, every source record of the cycle (the promoted Incoming
records and any aggregation leftovers) is still on disk in the
aggregation directory, and the artifact sits in the uploading directory;
the uploading loop of a subsequent reconciliation pass then re-puts
exactly the stored artifact bytes — read directly from that file, not
regenerated — and clears the uploading directory. -/
theorem c6_upload_failure_retention (inc agg upl : List Entry) (nano : Nat)
    (hne : inc ≠ [])
    (hnd : (inc.map Prod.fst).Nodup)
    (hdisj : ∀ n ∈ inc.map Prod.fst, ¬ n ∈ agg.map Prod.fst)
    (hupl : (upl.map Prod.fst).Nodup)
    (htmpI : ¬ tempName nano ∈ inc.map Prod.fst)
    (htmpA : ¬ tempName nano ∈ agg.map Prod.fst)
    (htmpU : ¬ tempName nano ∈ upl.map Prod.fst) :
    ∃ body,
      aggregateAndUpload false nano ⟨inc, agg, upl⟩
        = ⟨⟨[], agg ++ inc, upl ++ [(tempName nano, body)]⟩, [],
            some "failed to upload to S3"⟩
      ∧ (∀ e ∈ inc, e ∈ agg ++ inc)
      ∧ (∀ e ∈ agg, e ∈ agg ++ inc)
      ∧ processUploadingFiles true (upl ++ [(tempName nano, body)])
          ((upl ++ [(tempName nano, body)]).map Prod.fst)
        = ([], upl.map Prod.snd ++ [body]) := by
  obtain ⟨body, hbody⟩ :=
    aggregateAndUpload_fail_eq inc agg upl nano hne hnd hdisj htmpI htmpA
  refine ⟨body, ?_, fun e he => List.mem_append_right _ he,
    fun e he => List.mem_append_left _ he, ?_⟩
  · rw [hbody, putEntry_of_not_mem _ htmpU]
  · have hnd2 : ((upl ++ [(tempName nano, body)]).map Prod.fst).Nodup := by
      rw [List.map_append, List.nodup_append]
      refine ⟨hupl, by simp, ?_⟩
      intro a ha hb
      simp only [List.map_cons, List.map_nil, List.mem_singleton] at hb
      exact htmpU (hb ▸ ha)
    rw [processUploadingFiles_all _ hnd2, List.map_append]
    simp

/-- Witness for the C6 theorem at a one-record cycle. -/
theorem c6_upload_failure_retention_witness :
    ∃ body,
      aggregateAndUpload false 3 ⟨[("5.6.alice", [65])], [], []⟩
        = ⟨⟨[], [] ++ [("5.6.alice", [65])], [] ++ [(tempName 3, body)]⟩, [],
            some "failed to upload to S3"⟩
      ∧ (∀ e ∈ [(("5.6.alice" : String), ([65] : List Byte))],
          e ∈ [] ++ [(("5.6.alice" : String), ([65] : List Byte))])
      ∧ (∀ e ∈ ([] : List Entry), e ∈ [] ++ [(("5.6.alice" : String), ([65] : List Byte))])
      ∧ processUploadingFiles true ([] ++ [(tempName 3, body)])
          (([] ++ [(tempName 3, body)]).map Prod.fst)
        = ([], List.map Prod.snd ([] : List Entry) ++ [body]) :=
  c6_upload_failure_retention [("5.6.alice", [65])] [] [] 3
    (by decide) (by decide) (by decide) (by decide) (by decide) (by decide) (by decide)

/-- C7 amended: the reconciliation pass recovers specimen records from
the Incoming stage, not the Uploading stage.  A record sitting in the
specimen Incoming directory with a decodable name is picked up by the
specimen loop and re-uploaded with the fixed placeholder owner
"unknown"; when the Incoming listing is empty the loop does nothing,
whatever the Uploading directory holds. -/
theorem c7_amended_incoming_recovery (st : CacheState) (name uri : String) (t : SpecTime)
    (data : List Byte)
    (hin : st.specimenIncoming = [(name, data)])
    (hparse : getSpecimenInfo name = .ok (uri, t))
    (hfresh : ¬ name ∈ st.specimenUploading.map Prod.fst) :
    processSpecimenLoop true st (st.specimenIncoming.map Prod.fst)
      = ({ st with specimenIncoming := [] }, [⟨"unknown", uri, data⟩])
    ∧ ∀ st2 : CacheState, st2.specimenIncoming = [] →
        processSpecimenLoop true st2 (st2.specimenIncoming.map Prod.fst) = (st2, []) := by
  constructor
  · have hfind : findSpecimenTarget [(name, data)] uri = some (name, data) := by
      simp only [findSpecimenTarget, hparse]
      simp
    have hrem : removeEntryQuiet [(name, data)] name = [] := by
      rw [removeEntryQuiet_cons_self]
      rfl
    have hputU : putEntry st.specimenUploading name data
        = st.specimenUploading ++ [(name, data)] := putEntry_of_not_mem _ hfresh
    have hremU : removeEntryQuiet (st.specimenUploading ++ [(name, data)]) name
        = st.specimenUploading := by
      rw [removeEntryQuiet_append, removeEntryQuiet_of_not_mem hfresh,
          removeEntryQuiet_cons_self]
      simp [removeEntryQuiet]
    have hupl : uploadSpecimen true "unknown" uri st
        = ({ st with specimenIncoming := [] }, [⟨"unknown", uri, data⟩], none) := by
      simp only [uploadSpecimen, hin, hfind, hparse, hrem, hputU, hremU]
      simp
    rw [hin]
    simp only [List.map_cons, List.map_nil, processSpecimenLoop, hparse, hupl]
    simp
  · intro st2 h2
    rw [h2]
    rfl

/-- Witness for the amended C7 theorem on a concrete decodable specimen
record left in Incoming. -/
theorem c7_amended_incoming_recovery_witness :
    processSpecimenLoop true
        ⟨⟨[], [], []⟩, ⟨[], [], []⟩,
          [("20240101123045.123456.12345.http%3A%2F%2Fexample.com%2Ftest.png", [7])], []⟩
        ((⟨⟨[], [], []⟩, ⟨[], [], []⟩,
          [("20240101123045.123456.12345.http%3A%2F%2Fexample.com%2Ftest.png", [7])],
            []⟩ : CacheState).specimenIncoming.map Prod.fst)
      = (⟨⟨[], [], []⟩, ⟨[], [], []⟩, [], []⟩,
          [⟨"unknown", "http://example.com/test.png", [7]⟩])
    ∧ ∀ st2 : CacheState, st2.specimenIncoming = [] →
        processSpecimenLoop true st2 (st2.specimenIncoming.map Prod.fst) = (st2, []) :=
  c7_amended_incoming_recovery
    ⟨⟨[], [], []⟩, ⟨[], [], []⟩,
      [("20240101123045.123456.12345.http%3A%2F%2Fexample.com%2Ftest.png", [7])], []⟩
    "20240101123045.123456.12345.http%3A%2F%2Fexample.com%2Ftest.png"
    "http://example.com/test.png" ⟨"20240101123045", 123456⟩ [7]
    rfl rfl (by simp)

/-- C8: order preservation.  For two staged records with distinct names
(directory listings cannot repeat a name), if both are part of one
aggregation cycle and the first name sorts strictly before the second,
then the first record's payload chunk occurs strictly before the second
record's chunk in the artifact the cycle builds: the cycle sorts the
staged filenames ascending and concatenates in that order. -/
theorem c8_order_preservation (dir : List Entry) (n1 n2 : String) (c1 c2 : List Byte)
    (hnd : (dir.map Prod.fst).Nodup)
    (h1 : (n1, c1) ∈ dir) (h2 : (n2, c2) ∈ dir) (hlt : n1 < n2) :
    ∃ pre mid post,
      cycleArtifact dir
        = some (aggregateFiles pre ++ appendFile c1 ++ aggregateFiles mid
            ++ appendFile c2 ++ aggregateFiles post) := by
  have hm1 : n1 ∈ sortNames (dir.map Prod.fst) :=
    (sortNames_perm _).mem_iff.mpr (List.mem_map.mpr ⟨(n1, c1), h1, rfl⟩)
  have hm2 : n2 ∈ sortNames (dir.map Prod.fst) :=
    (sortNames_perm _).mem_iff.mpr (List.mem_map.mpr ⟨(n2, c2), h2, rfl⟩)
  obtain ⟨l1, l2, l3, hsplit⟩ := sorted_split_of_lt (sortNames_sorted _) hm1 hm2 hlt
  have hsub : ∀ m ∈ sortNames (dir.map Prod.fst), m ∈ dir.map Prod.fst :=
    fun m hm => (sortNames_perm _).mem_iff.mp hm
  have hsub1 : ∀ m ∈ l1, m ∈ dir.map Prod.fst := fun m hm =>
    hsub m (by rw [hsplit]; exact List.mem_append_left _ hm)
  have hsub2 : ∀ m ∈ l2, m ∈ dir.map Prod.fst := fun m hm =>
    hsub m (by
      rw [hsplit]
      exact List.mem_append_right _
        (List.mem_cons_of_mem _ (List.mem_append_left _ hm)))
  have hsub3 : ∀ m ∈ l3, m ∈ dir.map Prod.fst := fun m hm =>
    hsub m (by
      rw [hsplit]
      exact List.mem_append_right _
        (List.mem_cons_of_mem _ (List.mem_append_right _ (List.mem_cons_of_mem _ hm))))
  obtain ⟨as, has⟩ := readAll_isSome hsub1
  obtain ⟨bs, hbs⟩ := readAll_isSome hsub2
  obtain ⟨cs, hcs⟩ := readAll_isSome hsub3
  have hg1 : readAll dir [n1] = some [c1] := by
    simp only [readAll, getEntry_of_mem_nodup h1 hnd]
  have hg2 : readAll dir [n2] = some [c2] := by
    simp only [readAll, getEntry_of_mem_nodup h2 hnd]
  refine ⟨as, bs, cs, ?_⟩
  rw [cycleArtifact, hsplit]
  have hform : l1 ++ n1 :: (l2 ++ n2 :: l3)
      = l1 ++ ([n1] ++ (l2 ++ ([n2] ++ l3))) := by simp
  rw [hform,
    readAll_append_of has
      (readAll_append_of hg1 (readAll_append_of hbs (readAll_append_of hg2 hcs)))]
  simp only [Option.map_some']
  rw [aggregateFiles_append, aggregateFiles_append, aggregateFiles_append,
    aggregateFiles_append]
  simp [aggregateFiles]

/-- Witness for the C8 theorem on a two-record directory. -/
theorem c8_order_preservation_witness :
    ∃ pre mid post,
      cycleArtifact [("1.1.a", [65]), ("2.1.b", [66])]
        = some (aggregateFiles pre ++ appendFile [65] ++ aggregateFiles mid
            ++ appendFile [66] ++ aggregateFiles post) :=
  c8_order_preservation [("1.1.a", [65]), ("2.1.b", [66])] "1.1.a" "2.1.b" [65] [66]
    (by decide) (by decide) (by decide)
    (by rw [String.lt_iff_toList_lt]; decide)

/-- C9: an admission name collision overwrites silently.  Two saves of
the same generated name (equal timestamp, pid and owner for usage/error;
equal formatted time, pid and URI for specimen) leave a single record:
reading the name back returns the second payload, every entry under that
name holds the second payload (the first is gone), and saveFile reports
no error — in the model it is total, as os.Create truncates an existing
file silently. -/
theorem c9_name_collision_overwrites (dir : List Entry) (ts pid : Nat) (user uri : String)
    (t : SpecTime) (d1 d2 : List Byte) :
    readFile (saveFile (saveFile dir (generateFilename ts pid user) d1)
        (generateFilename ts pid user) d2) (generateFilename ts pid user) = some d2
    ∧ (∀ x, (generateFilename ts pid user, x)
        ∈ saveFile (saveFile dir (generateFilename ts pid user) d1)
            (generateFilename ts pid user) d2 → x = d2)
    ∧ readFile (saveFile (saveFile dir (generateSpecimenFilename uri t pid) d1)
        (generateSpecimenFilename uri t pid) d2) (generateSpecimenFilename uri t pid)
      = some d2 :=
  ⟨getEntry_putEntry_self _ _ _, fun _ hx => mem_putEntry_self hx,
    getEntry_putEntry_self _ _ _⟩

/-- C10: the payload is stored verbatim.  Reading back the file just
written by SaveUsage/SaveError (saveRecord) or SaveSpecimen under its
generated name returns exactly the admitted bytes — no transformation,
framing, or trailing newline is applied at admission time. -/
theorem c10_payload_stored_verbatim (kd : KindDirs) (st : CacheState) (ts pid : Nat)
    (user uri : String) (t : SpecTime) (data : List Byte) :
    readFile (saveRecord ts pid user data kd).incoming (generateFilename ts pid user)
      = some data
    ∧ readFile (saveSpecimen uri t pid data st).specimenIncoming
        (generateSpecimenFilename uri t pid) = some data :=
  ⟨getEntry_putEntry_self _ _ _, getEntry_putEntry_self _ _ _⟩

end Insights
